import Mathlib

/-!
Verification of the dataset-matching and context-assembly core of the
AyurGenix assistant. The embedding follows `src/app.py` (`load_dataset`,
`search_dataset`, `format_matches_for_context`); `src/streamlit_app.py`
contains the same matching logic with an identical scan.
-/

namespace AyurGenix

/-- One row of the Ayurvedic dataset: an association list from column names
to free-text values, mirroring a pandas row where `row.get(key, default)`
falls back to the default when the column is absent. -/
structure Record where
  fields : List (String × String)
deriving DecidableEq

/-- The value of column `key` in row `r`, or `dflt` when the column is
absent, as `row.get(key, dflt)` behaves in the source. -/
def Record.get (r : Record) (key dflt : String) : String :=
  (r.fields.lookup key).getD dflt

/-- Python `s.lower()` restricted to the basic-latin range, producing the
character list of the lower-cased string. -/
def lowerChars (s : String) : List Char :=
  s.toList.map Char.toLower

/-- Accumulator pass behind `splitWords`: `acc` holds the current word in
reverse; whitespace closes a word, empty pieces are dropped. -/
def splitWordsAux : List Char → List Char → List (List Char)
  | [], acc => if acc = [] then [] else [acc.reverse]
  | c :: cs, acc =>
    if c.isWhitespace then
      if acc = [] then splitWordsAux cs []
      else acc.reverse :: splitWordsAux cs []
    else splitWordsAux cs (c :: acc)

/-- Python `str.split()` with no separator: split on runs of whitespace,
never returning empty words. -/
def splitWords (s : List Char) : List (List Char) :=
  splitWordsAux s []

/-- Python `needle in hay` for strings: `needle` occurs as a contiguous
substring of `hay`. -/
def containsSub (hay needle : List Char) : Bool :=
  hay.tails.any fun t => needle.isPrefixOf t

/-- Strong match of `src/app.py` line 58: the lower-cased full query occurs
in the lower-cased `Disease` or `Symptoms` field of the row. -/
def strongMatch (queryLower : List Char) (r : Record) : Bool :=
  containsSub (lowerChars (r.get "Disease" "")) queryLower ||
    containsSub (lowerChars (r.get "Symptoms" "")) queryLower

/-- Weak match of `src/app.py` lines 61-65: some whitespace-separated query
word of length strictly greater than 3 occurs in the lower-cased `Disease`
or `Symptoms` field; the `break` after the first qualifying word is the
short-circuit of `List.any`, so the row is appended at most once. -/
def weakMatch (queryLower : List Char) (r : Record) : Bool :=
  (splitWords queryLower).any fun w =>
    decide (3 < w.length) &&
      (containsSub (lowerChars (r.get "Disease" "")) w ||
        containsSub (lowerChars (r.get "Symptoms" "")) w)

/-- One iteration of the scan loop of `src/app.py` lines 54-65: the row is
appended exactly when this returns `true`; the weak pass runs only in the
`else` branch, for rows that are not themselves strong matches. -/
def isCandidate (queryLower : List Char) (r : Record) : Bool :=
  if strongMatch queryLower r then true else weakMatch queryLower r

/-- `search_dataset(df, query)` of `src/app.py` lines 47-67: `None` yields
no matches; otherwise rows are scanned in order, candidates are collected
first-found, and the collected list is truncated to its first 5 entries. -/
def search_dataset (df : Option (List Record)) (query : String) : List Record :=
  match df with
  | none => []
  | some rows => (rows.filter (isCandidate (lowerChars query))).take 5

/-- `load_dataset()` of `src/app.py` lines 24-31: the spreadsheet read
either succeeds with the row list or fails with an error message; the
`except` branch converts any failure into `None`, so no exception escapes. -/
def load_dataset (readResult : Except String (List Record)) : Option (List Record) :=
  match readResult with
  | Except.ok df => some df
  | Except.error _ => none

/-- The fifteen labelled columns rendered after the `Disease` heading of a
section, in source order (`src/app.py` lines 78-92). -/
def fieldLabels : List String :=
  ["Symptoms", "Duration of Treatment", "Medical History", "Current Medications",
   "Risk Factors", "Stress Levels", "Herbal/Alternative Remedies", "Ayurvedic Herbs",
   "Formulation", "Doshas", "Constitution/Prakriti",
   "Diet and Lifestyle Recommendations", "Yoga & Physical Therapy", "Prevention",
   "Patient Recommendations"]

/-- One labelled line of a formatted section, with the `N/A` placeholder for
an absent column. -/
def fieldLine (r : Record) (label : String) : String :=
  "- **" ++ label ++ ":** " ++ r.get label "N/A" ++ "\n"

/-- The formatted section for the `i`-th match (`src/app.py` lines 76-94):
a numbered `Disease` heading, the fifteen labelled lines, and the `---`
separator line. -/
def formatRecord (i : Nat) (r : Record) : String :=
  "\n### " ++ toString i ++ ". " ++ r.get "Disease" "N/A" ++ "\n" ++
    String.join (fieldLabels.map (fieldLine r)) ++ "---\n"

/-- `format_matches_for_context(matches)` of `src/app.py` lines 70-95: the
fixed sentinel for an empty match list, otherwise a header followed by one
section per match, enumerated from 1 in match order. -/
def format_matches_for_context (ms : List Record) : String :=
  if ms = [] then "No direct matches found in the Ayurvedic database."
  else
    "**Relevant data from Ayurvedic database:**\n\n" ++
      String.join ((ms.enumFrom 1).map fun p => formatRecord p.1 p.2)

/-! Concrete rows used to instantiate theorems with hypotheses. -/

/-- A row whose `Disease` field is the two-word phrase "fever chills". -/
def recA : Record :=
  ⟨[("Disease", "fever chills"), ("Symptoms", "shaking")]⟩

/-- A row whose `Disease` field contains the word "fever" but not the full
phrase "fever chills". -/
def recB : Record :=
  ⟨[("Disease", "fever"), ("Symptoms", "none")]⟩

/-- A row with only a `Disease` column; every other column is absent. -/
def recC : Record :=
  ⟨[("Disease", "insomnia")]⟩

/-! Helper lemmas shared by the claim theorems. -/

/-- The scan output is a sublist of the scanned rows: filtering keeps order
and truncation keeps a prefix of the filtered list. -/
theorem search_sublist (rows : List Record) (q : String) :
    (search_dataset (some rows) q).Sublist rows :=
  List.Sublist.trans (List.take_sublist _ _) (List.filter_sublist _)

/-- A strong match is a candidate outright. -/
theorem isCandidate_of_strong {qL : List Char} {r : Record}
    (h : strongMatch qL r = true) : isCandidate qL r = true := by
  simp [isCandidate, h]

/-- An element whose position has fewer than `n` earlier elements satisfying
`p` survives `filter p` followed by `take n`. -/
theorem mem_take_filter_of_countP_lt {α : Type} (p : α → Bool) :
    ∀ (l : List α) (n i : Nat) (hi : i < l.length),
      p (l.get ⟨i, hi⟩) = true → (l.take i).countP p < n →
      l.get ⟨i, hi⟩ ∈ (l.filter p).take n := by
  intro l
  induction l with
  | nil => intro n i hi; exact absurd hi (Nat.not_lt_zero i)
  | cons a tl ih =>
    intro n i hi hp hcount
    cases i with
    | zero =>
      cases n with
      | zero => exact absurd hcount (Nat.lt_irrefl 0)
      | succ m =>
        simp only [List.get] at hp ⊢
        rw [List.filter_cons_of_pos hp]
        exact List.mem_cons_self a _
    | succ j =>
      have hj : j < tl.length := Nat.lt_of_succ_lt_succ hi
      simp only [List.get] at hp ⊢
      rw [List.take_succ_cons, List.countP_cons] at hcount
      by_cases hpa : p a = true
      · cases n with
        | zero => exact absurd hcount (Nat.not_lt_zero _)
        | succ m =>
          rw [List.filter_cons_of_pos hpa, List.take_succ_cons]
          refine List.mem_cons_of_mem a (ih m j hj hp ?_)
          have : (tl.take j).countP p + 1 < m + 1 := by
            simpa [hpa] using hcount
          exact Nat.lt_of_succ_lt_succ this
      · rw [List.filter_cons_of_neg (by simpa using hpa)]
        refine ih n j hj hp ?_
        simpa [hpa] using hcount

/-- Membership in a list yields a position in its enumeration from any
starting index. -/
theorem exists_mem_enumFrom_of_mem {α : Type} {r : α} :
    ∀ {l : List α}, r ∈ l → ∀ n : Nat, ∃ i, (i, r) ∈ l.enumFrom n := by
  intro l hr
  induction l with
  | nil => exact absurd hr (List.not_mem_nil r)
  | cons a tl ih =>
    intro n
    rcases List.mem_cons.mp hr with h | h
    · exact ⟨n, by simp [h]⟩
    · obtain ⟨i, hi⟩ := ih h (n + 1)
      exact ⟨i, List.mem_cons_of_mem _ hi⟩

/-- An infix of the right part of an append is an infix of the append. -/
theorem infix_app_left {α : Type} {x t : List α} (s : List α)
    (h : x <:+: t) : x <:+: s ++ t := by
  obtain ⟨u, v, huv⟩ := h
  exact ⟨s ++ u, v, by rw [← huv]; simp [List.append_assoc]⟩

/-- An infix of the left part of an append is an infix of the append. -/
theorem infix_app_right {α : Type} {x s : List α} (t : List α)
    (h : x <:+: s) : x <:+: s ++ t := by
  obtain ⟨u, v, huv⟩ := h
  exact ⟨u, v ++ t, by rw [← huv]; simp [List.append_assoc]⟩

/-- The character data of a joined list of strings is the flattened list of
the individual character data. -/
theorem data_foldl_append (l : List String) (s : String) :
    (l.foldl (fun r t => r ++ t) s).data = s.data ++ (l.map String.data).flatten := by
  induction l generalizing s with
  | nil => simp
  | cons a tl ih => simp [ih, List.append_assoc]

/-- `String.join` concatenates the character data in order. -/
theorem data_join (l : List String) :
    (String.join l).data = (l.map String.data).flatten := by
  simp [String.join, data_foldl_append]

/-- The data of any member string of a joined list is an infix of the joined
string's data. -/
theorem data_infix_join {s : String} {l : List String} (h : s ∈ l) :
    s.data <:+: (String.join l).data := by
  rw [data_join]
  exact List.infix_of_mem_flatten (List.mem_map_of_mem String.data h)

/-- The empty character list occurs as a substring of every string. -/
theorem containsSub_nil (hay : List Char) : containsSub hay [] = true := by
  cases hay <;> rfl

/-! Claim theorems. -/

/-- C1 as stated fails on the code: for the query "fever chills", `recA` is a
strong match, yet `recB`, which is not a strong match, is still returned by
the scan; the weak fallback is applied per record, not only when the whole
dataset has no strong match. -/
theorem weak_alongside_strong_counterexample :
    strongMatch (lowerChars "fever chills") recA = true ∧
      strongMatch (lowerChars "fever chills") recB = false ∧
      recA ∈ search_dataset (some [recA, recB]) "fever chills" ∧
      recB ∈ search_dataset (some [recA, recB]) "fever chills" := by
  decide

/-- C1 amended: the weak-match fallback is applied per record: every returned
record is either a strong match or a record that is not a strong match and is
qualified by the per-word pass, and a weakly matched record can be returned
alongside strong matches of the same query. -/
theorem returned_record_strong_or_weak (df : Option (List Record)) (q : String)
    (r : Record) (h : r ∈ search_dataset df q) :
    strongMatch (lowerChars q) r = true ∨
      (strongMatch (lowerChars q) r = false ∧ weakMatch (lowerChars q) r = true) := by
  cases df with
  | none => simp [search_dataset] at h
  | some rows =>
    simp only [search_dataset] at h
    have h2 := (List.mem_filter.mp (List.mem_of_mem_take h)).2
    cases hs : strongMatch (lowerChars q) r with
    | true => exact Or.inl rfl
    | false =>
      refine Or.inr ⟨rfl, ?_⟩
      simpa [isCandidate, hs] using h2

/-- Witness for the amended per-record branching, at a returned weak match. -/
theorem returned_record_strong_or_weak_witness :
    recB ∈ search_dataset (some [recA, recB]) "fever chills" ∧
      (strongMatch (lowerChars "fever chills") recB = true ∨
        (strongMatch (lowerChars "fever chills") recB = false ∧
          weakMatch (lowerChars "fever chills") recB = true)) :=
  ⟨by decide,
    returned_record_strong_or_weak (some [recA, recB]) "fever chills" recB (by decide)⟩

/-- C2: for every dataset and every query the match result has length at most
5: the `[:5]` cap is applied to the candidate list collected by the scan. -/
theorem search_dataset_length_le_five (df : Option (List Record)) (q : String) :
    (search_dataset df q).length ≤ 5 := by
  cases df with
  | none => simp [search_dataset]
  | some rows =>
    simp only [search_dataset, List.length_take]
    exact Nat.min_le_left _ _

/-- C4: the records returned by the scan appear in the same relative order as
in the dataset: the result is a sublist of the rows, collected first-found in
dataset order with no reordering or scoring. -/
theorem search_dataset_order_preserved (df : Option (List Record)) (q : String) :
    (search_dataset df q).Sublist (df.getD []) := by
  cases df with
  | none => exact List.nil_sublist _
  | some rows => exact search_sublist rows q

/-- C5: under the per-word fallback pass a record qualifies only through a
query word strictly longer than 3 characters: a candidate that is not a
strong match always exhibits such a word occurring in its `Disease` or
`Symptoms` field, so a word of length at most 3 never by itself qualifies. -/
theorem short_word_never_qualifies (qL : List Char) (r : Record)
    (hc : isCandidate qL r = true) (hs : strongMatch qL r = false) :
    ∃ w ∈ splitWords qL, 3 < w.length ∧
      (containsSub (lowerChars (r.get "Disease" "")) w ||
        containsSub (lowerChars (r.get "Symptoms" "")) w) = true := by
  have hw : weakMatch qL r = true := by simpa [isCandidate, hs] using hc
  simpa [weakMatch, List.any_eq_true, Bool.and_eq_true, decide_eq_true_eq] using hw

/-- Witness for the fallback word-length gate, at a concrete weak match. -/
theorem short_word_never_qualifies_witness :
    isCandidate (lowerChars "fever chills") recB = true ∧
      strongMatch (lowerChars "fever chills") recB = false ∧
      ∃ w ∈ splitWords (lowerChars "fever chills"), 3 < w.length ∧
        (containsSub (lowerChars (recB.get "Disease" "")) w ||
          containsSub (lowerChars (recB.get "Symptoms" "")) w) = true :=
  ⟨by decide, by decide,
    short_word_never_qualifies (lowerChars "fever chills") recB (by decide) (by decide)⟩

/-- C6: a failed spreadsheet read is caught and yields an absent dataset
rather than an exception, and matching over an absent or empty dataset
returns no matches for every query, without failing. -/
theorem load_failure_degrades_to_no_matches (e : String) (q : String) :
    load_dataset (Except.error e) = none ∧
      search_dataset (load_dataset (Except.error e)) q = [] ∧
      search_dataset (some []) q = [] :=
  ⟨rfl, rfl, rfl⟩

/-- C10: each dataset position contributes at most once to the result: no
record value occurs more often in the match result than in the dataset. -/
theorem search_dataset_count_le (rows : List Record) (q : String) (r : Record) :
    (search_dataset (some rows) q).count r ≤ rows.count r :=
  (search_sublist rows q).count_le r

/-- C3: a row whose `Disease` or `Symptoms` field contains the lower-cased
query as a substring is returned whenever fewer than 5 earlier rows are
candidates: the 5-item cap over the in-order scan is the only reason for
exclusion of a strong match. -/
theorem strong_match_is_returned (rows : List Record) (q : String) (i : Nat)
    (hi : i < rows.length)
    (hstrong : strongMatch (lowerChars q) (rows.get ⟨i, hi⟩) = true)
    (hcap : (rows.take i).countP (isCandidate (lowerChars q)) < 5) :
    rows.get ⟨i, hi⟩ ∈ search_dataset (some rows) q := by
  simp only [search_dataset]
  exact mem_take_filter_of_countP_lt _ rows 5 i hi (isCandidate_of_strong hstrong) hcap

/-- Witness for the inclusion of a strong match, at a concrete dataset. -/
theorem strong_match_is_returned_witness :
    strongMatch (lowerChars "fever") ([recA, recB].get ⟨0, Nat.zero_lt_succ 1⟩) = true ∧
      ([recA, recB].take 0).countP (isCandidate (lowerChars "fever")) < 5 ∧
      [recA, recB].get ⟨0, Nat.zero_lt_succ 1⟩ ∈ search_dataset (some [recA, recB]) "fever" :=
  ⟨by decide, by decide,
    strong_match_is_returned [recA, recB] "fever" 0 (Nat.zero_lt_succ 1)
      (by decide) (by decide)⟩

/-- C9: the empty query is a substring of every field, so every row of the
dataset is a strong match: the scan does not short-circuit empty queries to
zero matches, and returns the first `min 5 |D|` rows of a non-empty dataset. -/
theorem empty_query_returns_first_rows (rows : List Record) (_hne : rows ≠ []) :
    search_dataset (some rows) "" = rows.take 5 ∧
      (search_dataset (some rows) "").length = min 5 rows.length := by
  have hall : ∀ r ∈ rows, isCandidate (lowerChars "") r = true := by
    intro r _
    apply isCandidate_of_strong
    have h0 : lowerChars "" = ([] : List Char) := rfl
    rw [h0]
    simp [strongMatch, containsSub_nil]
  have hfil : rows.filter (isCandidate (lowerChars "")) = rows :=
    List.filter_eq_self.mpr hall
  exact ⟨by simp only [search_dataset, hfil],
    by simp only [search_dataset, hfil, List.length_take]⟩

/-- Witness for the empty-query behaviour, at a one-row dataset. -/
theorem empty_query_returns_first_rows_witness :
    ([recA] ≠ []) ∧ search_dataset (some [recA]) "" = [recA].take 5 ∧
      (search_dataset (some [recA]) "").length = min 5 [recA].length :=
  ⟨by decide, (empty_query_returns_first_rows [recA] (by decide)).1,
    (empty_query_returns_first_rows [recA] (by decide)).2⟩

/-- The non-empty branch of the formatter, as an equation. -/
theorem format_nonempty (ms : List Record) (hne : ms ≠ []) :
    format_matches_for_context ms =
      "**Relevant data from Ayurvedic database:**\n\n" ++
        String.join ((ms.enumFrom 1).map fun p => formatRecord p.1 p.2) := by
  unfold format_matches_for_context
  rw [if_neg hne]

/-- The section of each enumerated match is an infix of the formatted
context block. -/
theorem formatRecord_occurs (ms : List Record) (i : Nat) (r : Record)
    (hmem : (i, r) ∈ ms.enumFrom 1) :
    (formatRecord i r).data <:+: (format_matches_for_context ms).data := by
  have hne : ms ≠ [] := by
    intro hnil
    subst hnil
    exact List.not_mem_nil _ hmem
  have hmem2 : formatRecord i r ∈ (ms.enumFrom 1).map fun p => formatRecord p.1 p.2 :=
    List.mem_map.mpr ⟨(i, r), hmem, rfl⟩
  rw [format_nonempty ms hne, String.data_append]
  exact infix_app_left _ (data_infix_join hmem2)

/-- Every labelled line of a section is an infix of that section. -/
theorem fieldLine_occurs (i : Nat) (r : Record) (label : String)
    (hl : label ∈ fieldLabels) :
    (fieldLine r label).data <:+: (formatRecord i r).data := by
  have hmem2 : fieldLine r label ∈ fieldLabels.map (fieldLine r) :=
    List.mem_map.mpr ⟨label, hl, rfl⟩
  have hjoin := data_infix_join hmem2
  unfold formatRecord
  rw [String.data_append, String.data_append]
  exact infix_app_right _ (infix_app_left _ hjoin)

/-- C7: formatting never fails on any match result: an absent column of a
returned record still renders as that column's label followed by the `N/A`
placeholder, for every labelled field of every record of the match result. -/
theorem absent_field_renders_placeholder (ms : List Record) (r : Record)
    (hr : r ∈ ms) (label : String) (hl : label ∈ fieldLabels)
    (habs : r.fields.lookup label = none) :
    ("- **" ++ label ++ ":** " ++ "N/A" ++ "\n").data <:+:
      (format_matches_for_context ms).data := by
  obtain ⟨i, hi⟩ := exists_mem_enumFrom_of_mem hr 1
  have hline : fieldLine r label = "- **" ++ label ++ ":** " ++ "N/A" ++ "\n" := by
    simp [fieldLine, Record.get, habs]
  have h1 := fieldLine_occurs i r label hl
  rw [hline] at h1
  exact h1.trans (formatRecord_occurs ms i r hi)

/-- Witness for placeholder rendering, at a row missing its `Symptoms`
column. -/
theorem absent_field_renders_placeholder_witness :
    recC ∈ [recC] ∧ "Symptoms" ∈ fieldLabels ∧
      recC.fields.lookup "Symptoms" = none ∧
      ("- **" ++ "Symptoms" ++ ":** " ++ "N/A" ++ "\n").data <:+:
        (format_matches_for_context [recC]).data :=
  ⟨by decide, by decide, by decide,
    absent_field_renders_placeholder [recC] recC (by decide) "Symptoms"
      (by decide) (by decide)⟩

/-- C8: the empty match result always formats to the fixed no-matches
sentinel, independent of the query; a non-empty match result formats to the
header followed by one section per record, enumerated from 1 in match-result
order, and each section carries every field label of the record format. -/
theorem format_context_sections (ms : List Record) (hne : ms ≠ [])
    (i : Nat) (r : Record) (hmem : (i, r) ∈ ms.enumFrom 1)
    (label : String) (hl : label ∈ fieldLabels) :
    format_matches_for_context [] = "No direct matches found in the Ayurvedic database." ∧
      format_matches_for_context ms =
        "**Relevant data from Ayurvedic database:**\n\n" ++
          String.join ((ms.enumFrom 1).map fun p => formatRecord p.1 p.2) ∧
      (formatRecord i r).data <:+: (format_matches_for_context ms).data ∧
      ("- **" ++ label ++ ":** ").data <:+: (formatRecord i r).data := by
  refine ⟨rfl, format_nonempty ms hne, formatRecord_occurs ms i r hmem, ?_⟩
  have hx : ("- **" ++ label ++ ":** ").data <:+: (fieldLine r label).data := by
    unfold fieldLine
    rw [String.data_append, String.data_append]
    exact infix_app_right _ (infix_app_right _ (List.infix_refl _))
  exact hx.trans (fieldLine_occurs i r label hl)

/-- Witness for the formatted-context structure, at a one-row match result. -/
theorem format_context_sections_witness :
    ([recA] ≠ []) ∧ ((1, recA) ∈ [recA].enumFrom 1) ∧ "Symptoms" ∈ fieldLabels ∧
      (format_matches_for_context [] = "No direct matches found in the Ayurvedic database." ∧
        format_matches_for_context [recA] =
          "**Relevant data from Ayurvedic database:**\n\n" ++
            String.join (([recA].enumFrom 1).map fun p => formatRecord p.1 p.2) ∧
        (formatRecord 1 recA).data <:+: (format_matches_for_context [recA]).data ∧
        ("- **" ++ "Symptoms" ++ ":** ").data <:+: (formatRecord 1 recA).data) :=
  ⟨by decide, by decide, by decide,
    format_context_sections [recA] (by decide) 1 recA (by decide) "Symptoms" (by decide)⟩

end AyurGenix
